import Mathlib

/-!
Verification of the pydrivedol path-keyed store (`pydrivedol/base.py`)
against its design specification.

The remote Google Drive backend is modelled as an explicit `Drive` state: a
flat list of nodes (files and folders) with opaque numeric identities and
parent links, together with a fresh-identity counter.  The PyDrive2 calls
issued by the code (`ListFile`, `CreateFile`+`Upload`, `SetContentString`,
`GetContentString`, `Delete`) become pure state transformers on `Drive`,
and every operation additionally returns the list of backend calls it
performed, so that claims about *which* backend calls happen (and in what
order) are statable.

`GDReader._list_files` is translated as `listFilesAux`.  The Python
function recurses along folder children; in Lean the recursion is driven
by an explicit fuel argument (the Python recursion is bounded by the tree
depth, which for a drive with acyclic parent links is at most the node
count, so `nodes.length + 1` fuel reproduces the Python behaviour exactly;
on a drive with cyclic parent links the Python code would not terminate).
Besides the yielded `(path, id)` pairs the traversal records the
`list_children` calls it makes, whether the early-return branch
(`level > max_levels`) ever executed, and, for every non-hidden folder
encountered, the recursion level at which it was reached and whether it
was descended into.  These extra observations instrument branches of the
source that the claims talk about; they do not alter the computation.
-/

set_option autoImplicit false

namespace Pydrivedol

/-! ## Bytes and the latin-1 codec

`GDStore.__setitem__` stores `value.decode('latin-1')` and
`GDReader.__getitem__` returns `content.encode('latin-1')`.  Bytes are
`Fin 256`; a Python `str` is a list of code points (`List Nat`). -/

/-- A single byte, as handled by the Python `bytes` type. -/
abbrev Byte := Fin 256

/-- Python `value.decode('latin-1')`: each byte becomes the code point of
the same numeric value.  Total on bytes. -/
def decodeLatin1 (b : List Byte) : List Nat :=
  b.map Fin.val

/-- Python `content.encode('latin-1')`: each code point below 256 becomes
the byte of the same value; a code point of 256 or more raises, modelled
as `none`. -/
def encodeLatin1 : List Nat → Option (List Byte)
  | [] => some []
  | c :: cs =>
    if h : c < 256 then (encodeLatin1 cs).map (fun bs => ⟨c, h⟩ :: bs)
    else none

/-! ## Path construction

The Python code only ever uses single-character string tests and splits
(`name.startswith('.')`, `key.split('/')`, `os.path.join`), so these are
translated at the character-list level, where the kernel can evaluate
them on concrete inputs. -/

/-- `s.startswith(c)` for a single character `c`. -/
def headIs (c : Char) (s : String) : Bool :=
  s.data.head? == some c

/-- `s.endswith(c)` for a single character `c`. -/
def lastIs (c : Char) (s : String) : Bool :=
  s.data.getLast? == some c

/-- Split a character list on a separator character; the Python
`str.split` semantics (a list of possibly empty chunks, one more chunk
than separators). -/
def splitChars (sep : Char) : List Char → List (List Char)
  | [] => [[]]
  | c :: rest =>
    if c = sep then [] :: splitChars sep rest
    else
      match splitChars sep rest with
      | [] => [[c]]
      | chunk :: chunks => (c :: chunk) :: chunks

/-- `key.split('/')`. -/
def splitSlash (s : String) : List String :=
  (splitChars '/' s.data).map String.mk

/-- `os.path.join(p, n)` for the two-argument case used by the source. -/
def joinPath (p n : String) : String :=
  if headIs '/' n then n
  else if p = "" ∨ lastIs '/' p then p ++ n
  else p ++ "/" ++ n

/-- The item-path construction of `_list_files`:
`os.path.join(prefix, name) if prefix else name`. -/
def mkItemPath (pre t : String) : String :=
  if pre = "" then t else joinPath pre t

/-- The relative path the traversal assigns to an entry reached through
the given chain of segments, starting from the empty path at the root. -/
def pathOfSegs (segs : List String) : String :=
  segs.foldl mkItemPath ""

/-- `os.path.basename(key)` for slash-separated keys. -/
def basename (s : String) : String :=
  (splitSlash s).getLastD ""

/-! ## The remote drive -/

/-- A single remote node, as exposed by the Drive API: an opaque numeric
identity, a title, a mime-type flag distinguishing folders from files, a
parent identity, string content (a list of code points, since the code
reads and writes content through `GetContentString`/`SetContentString`),
and the trashed flag the queries filter on. -/
structure Node where
  id : Nat
  title : String
  isFolder : Bool
  parent : Nat
  content : List Nat
  trashed : Bool
  deriving DecidableEq, Repr

/-- The remote drive: the list of existing nodes and the next fresh
identity the backend will assign. -/
structure Drive where
  nodes : List Node
  nextId : Nat
  deriving DecidableEq, Repr

/-- The query `'{folder_id}' in parents and trashed=false` issued by
`_list_files`. -/
def Drive.children (d : Drive) (parent : Nat) : List Node :=
  d.nodes.filter (fun n => n.parent == parent && !n.trashed)

/-- The query issued by `_get_or_create_folders`: children of `parent`
with an exact title match, folder mime type, not trashed. -/
def Drive.folderChildrenNamed (d : Drive) (parent : Nat) (title : String) :
    List Node :=
  d.nodes.filter (fun n =>
    n.parent == parent && n.title == title && n.isFolder && !n.trashed)

/-- The query issued by `__setitem__` when looking for an existing file:
children of `parent` with an exact title match, not trashed (note: no
mime-type filter in the source). -/
def Drive.childrenNamed (d : Drive) (parent : Nat) (title : String) :
    List Node :=
  d.nodes.filter (fun n =>
    n.parent == parent && n.title == title && !n.trashed)

/-- `CreateFile` followed by `Upload`: a new node with a fresh identity is
appended; returns the new drive and the fresh identity. -/
def Drive.createNode (d : Drive) (parent : Nat) (title : String)
    (isFolder : Bool) (content : List Nat) : Drive × Nat :=
  (⟨d.nodes ++ [⟨d.nextId, title, isFolder, parent, content, false⟩],
    d.nextId + 1⟩, d.nextId)

/-- `SetContentString` followed by `Upload` on an existing node. -/
def Drive.setContent (d : Drive) (id : Nat) (content : List Nat) : Drive :=
  ⟨d.nodes.map (fun n => if n.id == id then
      { n with content := content } else n), d.nextId⟩

/-- `gfile.Delete()`: the node with the given identity is removed. -/
def Drive.deleteNode (d : Drive) (id : Nat) : Drive :=
  ⟨d.nodes.filter (fun n => !(n.id == id)), d.nextId⟩

/-- `GetContentString` on a node identity. -/
def Drive.getContent (d : Drive) (id : Nat) : List Nat :=
  ((d.nodes.find? (fun n => n.id == id)).map Node.content).getD []

/-- The drive with every hidden-titled node removed.  Used to state the
hidden-filtering property: traversing with hidden entries excluded is the
same as traversing this drive with hidden entries included. -/
def Drive.removeHidden (d : Drive) : Drive :=
  ⟨d.nodes.filter (fun n => !(headIs '.' n.title)), d.nextId⟩

/-! ## Backend call events

Every store operation returns, next to its result, the list of Drive API
calls it performed, in order.  This instruments the claims about when the
backend is (not) contacted. -/

/-- One call to the remote Drive API. -/
inductive CallEv where
  | listChildren (parent : Nat)
  | createNode (parent : Nat) (title : String) (isFolder : Bool)
  | getContent (id : Nat)
  | setContent (id : Nat)
  | deleteNode (id : Nat)
  deriving DecidableEq, Repr

/-! ## The traversal engine (`GDReader._list_files`) -/

/-- Everything one run of `_list_files` produces: the yielded
`(relative path, file id)` pairs, the `list_children` calls in order, a
flag recording whether the early-return branch (`level > max_levels`)
executed anywhere, and for every non-hidden folder encountered the level
it was met at, split into all encounters and those descended into. -/
structure TravResult where
  pairs : List (String × Nat)
  calls : List CallEv
  cutoff : Bool
  encFolders : List (Nat × Int)
  descFolders : List (Nat × Int)
  deriving DecidableEq, Repr

/-- The traversal result of an empty generator. -/
def TravResult.empty : TravResult := ⟨[], [], false, [], []⟩

/-- Sequential composition of traversal results, in generator order. -/
def TravResult.append (a b : TravResult) : TravResult :=
  ⟨a.pairs ++ b.pairs, a.calls ++ b.calls, a.cutoff || b.cutoff,
    a.encFolders ++ b.encFolders, a.descFolders ++ b.descFolders⟩

/-- Concatenation of a list of traversal results, in order. -/
def travFold (l : List TravResult) : TravResult :=
  l.foldr TravResult.append TravResult.empty

/-- The early-return guard of `_list_files`:
`self.max_levels is not None and level > self.max_levels`. -/
def cutoffGuard (mL : Option Int) (lvl : Int) : Bool :=
  match mL with
  | some m => decide (lvl > m)
  | none => false

/-- The descend guard of `_list_files`:
`self.max_levels is None or level < self.max_levels`. -/
def descGuard (mL : Option Int) (lvl : Int) : Bool :=
  match mL with
  | some m => decide (lvl < m)
  | none => true

/-- `GDReader._list_files(folder_id, prefix, level)`, with the drive, the
`include_hidden` and `max_levels` settings explicit, and recursion driven
by fuel.  Each call first checks the early-return guard, then lists the
children of `folder_id` (one `list_children` call), and processes them in
order: hidden-titled entries are skipped when `include_hidden` is false;
folders are recorded as encountered and recursed into exactly when the
descend guard holds; files are yielded as `(item_path, id)` pairs. -/
def listFilesAux (d : Drive) (iH : Bool) (mL : Option Int) :
    Nat → Nat → String → Int → TravResult
  | 0, _, _, _ => TravResult.empty
  | fuel + 1, fid, pre, lvl =>
    if cutoffGuard mL lvl then ⟨[], [], true, [], []⟩
    else
      let step : Node → TravResult := fun item =>
        if !iH && headIs '.' item.title then TravResult.empty
        else if item.isFolder then
          if descGuard mL lvl then
            TravResult.append ⟨[], [], false, [(item.id, lvl)], [(item.id, lvl)]⟩
              (listFilesAux d iH mL fuel item.id (mkItemPath pre item.title) (lvl + 1))
          else ⟨[], [], false, [(item.id, lvl)], []⟩
        else ⟨[(mkItemPath pre item.title, item.id)], [], false, [], []⟩
      TravResult.append ⟨[], [CallEv.listChildren fid], false, [], []⟩
        (travFold ((d.children fid).map step))

/-! ## Values and errors -/

/-- A Python value passed to `__setitem__`: either a `bytes` object or
something else (a `str`, or any other object described by the name of its
type). -/
inductive PyVal where
  | bytes (b : List Byte)
  | str (s : String)
  | other (typeName : String)
  deriving DecidableEq, Repr

/-- The name of the Python type of a value, for the `TypeError` message. -/
def PyVal.typeName : PyVal → String
  | .bytes _ => "bytes"
  | .str _ => "str"
  | .other t => t

/-- The exceptions raised by the code: `KeyError` (the NotFound condition,
carrying the missing key), `TypeError` (the InvalidInput condition of the
write-side type guard), and a latin-1 encode failure on read. -/
inductive PyErr where
  | keyError (key : String)
  | typeError (typeName : String)
  | encodeError
  deriving DecidableEq, Repr

instance {ε α : Type} [DecidableEq ε] [DecidableEq α] :
    DecidableEq (Except ε α) := fun a b =>
  match a, b with
  | .ok x, .ok y => decidable_of_iff (x = y) (by simp)
  | .ok _, .error _ => isFalse (by simp)
  | .error _, .ok _ => isFalse (by simp)
  | .error e, .error f => decidable_of_iff (e = f) (by simp)

/-! ## The python dict built by `_files` -/

/-- `dict(pairs)`: first-insertion key order, last value wins. -/
def dictOf (ps : List (String × Nat)) : List (String × Nat) :=
  ps.foldl (fun acc kv =>
    if acc.any (fun e => e.1 == kv.1) then
      acc.map (fun e => if e.1 == kv.1 then (e.1, kv.2) else e)
    else acc ++ [kv]) []

/-- `key in files` on the built dict. -/
def hasKey (m : List (String × Nat)) (k : String) : Bool :=
  m.any (fun e => e.1 == k)

/-- `files[key]` on the built dict (keys are unique after `dictOf`, so the
first binding is the binding). -/
def getVal (m : List (String × Nat)) (k : String) : Nat :=
  ((m.find? (fun e => e.1 == k)).map Prod.snd).getD 0

/-! ## The store (`GDReader` state plus `GDStore` operations) -/

/-- The instance state of a `GDStore` (which extends `GDReader`): the
remote drive it talks to, the root folder identity, the `max_levels` and
`include_hidden` settings, and the `_file_cache` attribute. -/
structure GDStore where
  drive : Drive
  folderId : Nat
  maxLevels : Option Int
  includeHidden : Bool
  fileCache : Option (List (String × Nat))
  deriving DecidableEq, Repr

/-- One full run of `self._list_files(self.folder_id)`, from the root at
level 0 with the empty path, with fuel covering any acyclic drive. -/
def GDStore.filesOf (s : GDStore) : TravResult :=
  listFilesAux s.drive s.includeHidden s.maxLevels
    (s.drive.nodes.length + 1) s.folderId "" 0

/-- The `_files` property: return the cached dict if present, otherwise
build it from a fresh traversal and cache it.  Returns the dict, the
updated instance, and the backend calls made. -/
def GDStore.filesM (s : GDStore) :
    List (String × Nat) × GDStore × List CallEv :=
  match s.fileCache with
  | some m => (m, s, [])
  | none =>
    let r := s.filesOf
    let m := dictOf r.pairs
    (m, { s with fileCache := some m }, r.calls)

/-- `_refresh_cache`: discard the whole cached index. -/
def GDStore.refreshCache (s : GDStore) : GDStore :=
  { s with fileCache := none }

/-- `key in self` (the `Mapping` containment test). -/
def GDStore.containsKey (s : GDStore) (key : String) :
    Bool × GDStore × List CallEv :=
  let r := s.filesM
  (hasKey r.1 key, r.2.1, r.2.2)

/-- `len(self)`. -/
def GDStore.lenOp (s : GDStore) : Nat × GDStore × List CallEv :=
  let r := s.filesM
  (r.1.length, r.2.1, r.2.2)

/-- `GDReader.__getitem__`: look the key up in `_files` (raising
`KeyError` if absent), fetch the content string for its identity, and
encode it back to bytes with latin-1. -/
def GDStore.getItem (s : GDStore) (key : String) :
    Except PyErr (List Byte) × GDStore × List CallEv :=
  let r := s.filesM
  if hasKey r.1 key then
    let fid := getVal r.1 key
    match encodeLatin1 (r.2.1.drive.getContent fid) with
    | some bs => (Except.ok bs, r.2.1, r.2.2 ++ [CallEv.getContent fid])
    | none => (Except.error PyErr.encodeError, r.2.1,
        r.2.2 ++ [CallEv.getContent fid])
  else (Except.error (PyErr.keyError key), r.2.1, r.2.2)

/-- `GDStore._get_or_create_folders`, after the key has been split: walk
the folder segments from the current identity, descending into the first
existing folder child with a matching title, or creating one when none
exists. -/
def getOrCreateFoldersAux (d : Drive) (current : Nat) :
    List String → Drive × Nat × List CallEv
  | [] => (d, current, [])
  | name :: rest =>
    match d.folderChildrenNamed current name with
    | f :: _ =>
      let r := getOrCreateFoldersAux d f.id rest
      (r.1, r.2.1, CallEv.listChildren current :: r.2.2)
    | [] =>
      let c := d.createNode current name true []
      let r := getOrCreateFoldersAux c.1 c.2 rest
      (r.1, r.2.1,
        CallEv.listChildren current :: CallEv.createNode current name true :: r.2.2)

/-- `GDStore._get_or_create_folders(key)`: split the key on the
separator, drop the leaf segment, and resolve the folder chain from the
root. -/
def getOrCreateFolders (d : Drive) (rootId : Nat) (key : String) :
    Drive × Nat × List CallEv :=
  getOrCreateFoldersAux d rootId ((splitSlash key).dropLast)

/-- `GDStore.__setitem__`: reject non-bytes values with `TypeError`
before any backend call; otherwise resolve the parent folder, query for
an existing child with the leaf name, update it if found or create a new
file otherwise, and discard the cached index. -/
def GDStore.setItem (s : GDStore) (key : String) (v : PyVal) :
    Except PyErr Unit × GDStore × List CallEv :=
  match v with
  | PyVal.bytes b =>
    let r := getOrCreateFolders s.drive s.folderId key
    let filename := basename key
    match r.1.childrenNamed r.2.1 filename with
    | gfile :: _ =>
      let s2 := { s with drive := r.1.setContent gfile.id (decodeLatin1 b), fileCache := none }
      (Except.ok (), s2,
        r.2.2 ++ [CallEv.listChildren r.2.1, CallEv.setContent gfile.id])
    | [] =>
      let c := r.1.createNode r.2.1 filename false (decodeLatin1 b)
      let s2 := { s with drive := c.1, fileCache := none }
      (Except.ok (), s2,
        r.2.2 ++ [CallEv.listChildren r.2.1,
          CallEv.createNode r.2.1 filename false])
  | v => (Except.error (PyErr.typeError v.typeName), s, [])

/-- `GDStore.__delitem__`: look the key up in `_files` (raising
`KeyError` if absent), delete the node with its identity, and discard the
cached index. -/
def GDStore.delItem (s : GDStore) (key : String) :
    Except PyErr Unit × GDStore × List CallEv :=
  let r := s.filesM
  if hasKey r.1 key then
    let fid := getVal r.1 key
    let s2 := { r.2.1 with drive := r.2.1.drive.deleteNode fid, fileCache := none }
    (Except.ok (), s2, r.2.2 ++ [CallEv.deleteNode fid])
  else (Except.error (PyErr.keyError key), r.2.1, r.2.2)

/-! ## Concrete stores used by the claims -/

/-- A store over an empty drive: only the root folder (identity 0)
exists, the first fresh identity is 1, depth is unbounded, and the cache
is empty. -/
def store0 (iH : Bool) : GDStore :=
  ⟨⟨[], 1⟩, 0, none, iH, none⟩

/-- A drive with one file at the root and one file inside one subfolder:
`a.txt` (id 1), folder `sub` (id 2), `sub/b.txt` (id 3). -/
def depthDrive : Drive :=
  ⟨[⟨1, "a.txt", false, 0, [], false⟩,
    ⟨2, "sub", true, 0, [], false⟩,
    ⟨3, "b.txt", false, 2, [], false⟩], 4⟩

/-- The depth-example store with `max_levels = 0`. -/
def depthStore0 : GDStore := ⟨depthDrive, 0, some 0, false, none⟩

/-- The depth-example store with `max_levels = None`. -/
def depthStoreU : GDStore := ⟨depthDrive, 0, none, false, none⟩

/-- A drive with a hidden file, a hidden folder containing a visible
file, and a visible file, all at the root. -/
def hiddenDrive : Drive :=
  ⟨[⟨1, ".hidden.txt", false, 0, [], false⟩,
    ⟨2, ".hfold", true, 0, [], false⟩,
    ⟨3, "x.txt", false, 2, [], false⟩,
    ⟨4, "v.txt", false, 0, [], false⟩], 5⟩

/-- The hidden-example store, parameterized by `include_hidden`. -/
def hiddenStore (iH : Bool) : GDStore := ⟨hiddenDrive, 0, none, iH, none⟩

/-- The store obtained by writing `a/b/x.txt` and then `a/b/y.txt` into a
store over an empty drive. -/
def doubleWriteStore : GDStore :=
  (GDStore.setItem
    ((GDStore.setItem (store0 false) "a/b/x.txt" (PyVal.bytes [])).2.1)
    "a/b/y.txt" (PyVal.bytes [])).2.1

/-! ## The folder chain created by a fresh resolution

Resolving folder segments that do not exist yet creates one folder per
segment, each the child of the previous one, with identities assigned
consecutively.  These definitions describe that chain; they are the
specification the resolver is proved against. -/

/-- The folder nodes created by resolving the given fresh segments under
parent `c` with first fresh identity `i`. -/
def chainFolders : List String → Nat → Nat → List Node
  | [], _, _ => []
  | s :: rest, c, i => ⟨i, s, true, c, [], false⟩ :: chainFolders rest i (i + 1)

/-- The identity of the last folder of a freshly created chain — the
starting identity when there is no segment. -/
def chainLast : List String → Nat → Nat → Nat
  | [], c, _ => c
  | _ :: rest, _, i => i + rest.length

/-- The backend calls of resolving fresh segments: one failed listing and
one creation per segment. -/
def chainTrace : List String → Nat → Nat → List CallEv
  | [], _, _ => []
  | s :: rest, c, i =>
    CallEv.listChildren c :: CallEv.createNode c s true
      :: chainTrace rest i (i + 1)

/-! ## Traversal lemmas -/

@[simp] theorem TravResult.append_pairs (a b : TravResult) :
    (a.append b).pairs = a.pairs ++ b.pairs := rfl

@[simp] theorem TravResult.append_calls (a b : TravResult) :
    (a.append b).calls = a.calls ++ b.calls := rfl

@[simp] theorem TravResult.append_cutoff (a b : TravResult) :
    (a.append b).cutoff = (a.cutoff || b.cutoff) := rfl

@[simp] theorem TravResult.append_encFolders (a b : TravResult) :
    (a.append b).encFolders = a.encFolders ++ b.encFolders := rfl

@[simp] theorem TravResult.append_descFolders (a b : TravResult) :
    (a.append b).descFolders = a.descFolders ++ b.descFolders := rfl

@[simp] theorem TravResult.empty_append (a : TravResult) :
    TravResult.empty.append a = a := by
  cases a; simp [TravResult.append, TravResult.empty]

@[simp] theorem TravResult.append_empty (a : TravResult) :
    a.append TravResult.empty = a := by
  cases a; simp [TravResult.append, TravResult.empty]

@[simp] theorem travFold_nil : travFold [] = TravResult.empty := rfl

@[simp] theorem travFold_cons (a : TravResult) (l : List TravResult) :
    travFold (a :: l) = a.append (travFold l) := rfl

@[simp] theorem travFold_pairs (l : List TravResult) :
    (travFold l).pairs = (l.map TravResult.pairs).flatten := by
  induction l with
  | nil => rfl
  | cons a l ih => simp [ih]

@[simp] theorem travFold_calls (l : List TravResult) :
    (travFold l).calls = (l.map TravResult.calls).flatten := by
  induction l with
  | nil => rfl
  | cons a l ih => simp [ih]

@[simp] theorem travFold_cutoff (l : List TravResult) :
    (travFold l).cutoff = l.any TravResult.cutoff := by
  induction l with
  | nil => rfl
  | cons a l ih => simp [ih]

@[simp] theorem travFold_encFolders (l : List TravResult) :
    (travFold l).encFolders = (l.map TravResult.encFolders).flatten := by
  induction l with
  | nil => rfl
  | cons a l ih => simp [ih]

@[simp] theorem travFold_descFolders (l : List TravResult) :
    (travFold l).descFolders = (l.map TravResult.descFolders).flatten := by
  induction l with
  | nil => rfl
  | cons a l ih => simp [ih]

/-- Pointwise description of one run of the traversal: the folders it
descends into are exactly the folders it encounters whose level passes
the descend guard. -/
theorem listFilesAux_desc_eq_filter (d : Drive) (iH : Bool) (mL : Option Int) :
    ∀ (fuel : Nat) (fid : Nat) (pre : String) (lvl : Int),
      (listFilesAux d iH mL fuel fid pre lvl).descFolders
        = (listFilesAux d iH mL fuel fid pre lvl).encFolders.filter
            (fun v => descGuard mL v.2) := by
  intro fuel
  induction fuel with
  | zero => intro fid pre lvl; rfl
  | succ fuel ih =>
    intro fid pre lvl
    simp only [listFilesAux]
    split
    · rfl
    · simp only [TravResult.append_descFolders, TravResult.append_encFolders,
        travFold_descFolders, travFold_encFolders, List.map_map,
        List.nil_append, List.filter_append]
      generalize d.children fid = l
      induction l with
      | nil => rfl
      | cons a l ihl =>
        simp only [List.map_cons, List.flatten, List.filter_append, Function.comp]
        rw [ihl]
        congr 1
        by_cases ha : (!iH && headIs '.' a.title) = true
        · simp [ha, TravResult.empty]
        · by_cases hfo : a.isFolder = true
          · by_cases hg : descGuard mL lvl = true
            · simp only [ha, hfo, hg, if_true, if_false, Bool.not_eq_true] at ha ⊢
              simp [ha, hfo, hg, ih, List.filter]
            · simp only [Bool.not_eq_true] at ha hg
              simp [ha, hfo, hg, List.filter]
          · simp only [Bool.not_eq_true] at ha hfo
            simp [ha, hfo]

/-- With `max_levels = 0` the traversal from level 0 yields exactly the
non-hidden direct file children of the root, with no descent. -/
theorem listFilesAux_depth_zero (d : Drive) (iH : Bool) (fuel : Nat)
    (fid : Nat) (pre : String) :
    (listFilesAux d iH (some 0) (fuel + 1) fid pre 0).pairs
      = (d.children fid).filterMap (fun item =>
          if !iH && headIs '.' item.title then none
          else if item.isFolder then none
          else some (mkItemPath pre item.title, item.id)) := by
  simp only [listFilesAux]
  have hcut : cutoffGuard (some 0) 0 = false := by decide
  rw [hcut]
  simp only [if_false, Bool.false_eq_true, TravResult.append_pairs,
    travFold_pairs, List.map_map, List.nil_append]
  generalize d.children fid = l
  induction l with
  | nil => rfl
  | cons a l ihl =>
    simp only [List.map_cons, List.flatten, List.filterMap_cons, Function.comp]
    rw [ihl]
    by_cases ha : (!iH && headIs '.' a.title) = true
    · simp [ha, TravResult.empty]
    · by_cases hfo : a.isFolder = true
      · have hg : descGuard (some 0) 0 = false := by decide
        simp only [Bool.not_eq_true] at ha
        simp [ha, hfo, hg]
      · simp only [Bool.not_eq_true] at ha hfo
        simp [ha, hfo]

/-- Folding a per-item traversal step over a list is the same as folding
an agreeing step over the sublist that survives a filter, when items
dropped by the filter contribute nothing. -/
theorem travFold_filter_congr (f g : Node → TravResult) (p : Node → Bool) :
    ∀ l : List Node,
      (∀ n ∈ l, p n = false → f n = TravResult.empty) →
      (∀ n ∈ l, p n = true → f n = g n) →
      travFold (l.map f) = travFold ((l.filter p).map g) := by
  intro l
  induction l with
  | nil => intro _ _; rfl
  | cons a l ihl =>
    intro h1 h2
    have ihl2 := ihl (fun n hn => h1 n (List.mem_cons_of_mem a hn))
      (fun n hn => h2 n (List.mem_cons_of_mem a hn))
    cases hp : p a
    · have ha : f a = TravResult.empty := h1 a (List.mem_cons_self a l) hp
      simp [List.filter_cons, hp, ha, ihl2]
    · have ha : f a = g a := h2 a (List.mem_cons_self a l) hp
      simp [List.filter_cons, hp, ha, ihl2]

/-- Traversing with hidden entries excluded is the same as traversing the
drive from which all hidden-titled nodes were removed with hidden entries
included.  In particular no hidden-titled file is ever yielded and no
hidden-titled folder is ever descended into. -/
theorem listFilesAux_removeHidden (d : Drive) (mL : Option Int) :
    ∀ (fuel : Nat) (fid : Nat) (pre : String) (lvl : Int),
      listFilesAux d false mL fuel fid pre lvl
        = listFilesAux d.removeHidden true mL fuel fid pre lvl := by
  have hch : ∀ fid, d.removeHidden.children fid
      = (d.children fid).filter (fun n => !(headIs '.' n.title)) := by
    intro fid
    simp only [Drive.removeHidden, Drive.children, List.filter_filter]
    exact List.filter_congr (fun x _ => by rw [Bool.and_comm])
  intro fuel
  induction fuel with
  | zero => intro fid pre lvl; rfl
  | succ fuel ih =>
    intro fid pre lvl
    simp only [listFilesAux]
    split
    · rfl
    · rw [hch]
      congr 1
      apply travFold_filter_congr
      · intro n _ hn
        have hsw : headIs '.' n.title = true := by
          simpa using hn
        simp [hsw]
      · intro n _ hn
        have hsw : headIs '.' n.title = false := by
          simpa using hn
        simp only [hsw, Bool.not_false, Bool.true_and, Bool.and_false,
          Bool.not_true, Bool.false_and, if_false, Bool.false_eq_true]
        by_cases hfo : n.isFolder = true
        · by_cases hg : descGuard mL lvl = true
          · simp [hfo, hg, ih]
          · simp only [Bool.not_eq_true] at hg
            simp [hfo, hg]
        · simp only [Bool.not_eq_true] at hfo
          simp [hfo]

/-! ## Claim C1 -/

/-- C1: when `max_depth` is `None` the descend guard always passes
(unlimited recursion); a folder encountered at level `L` is descended
into if and only if the descend guard `L < max_depth` passes (first
conjunct); with `max_depth = 0` the traversal yields only the direct file
children of the root, with no descent into subfolders (second conjunct);
on a tree with a file at the root and a file in one subfolder, the store
with `max_levels = 0` yields only the root key while the unbounded store
additionally yields the subfolder entry with its folder-prefixed path
(last two conjuncts). -/
theorem c1_depth_semantics :
    (∀ (d : Drive) (iH : Bool) (mL : Option Int) (fuel fid : Nat)
        (pre : String) (lvl : Int),
        (listFilesAux d iH mL fuel fid pre lvl).descFolders
          = (listFilesAux d iH mL fuel fid pre lvl).encFolders.filter
              (fun v => descGuard mL v.2))
    ∧ (∀ (d : Drive) (iH : Bool) (fuel fid : Nat) (pre : String),
        (listFilesAux d iH (some 0) (fuel + 1) fid pre 0).pairs
          = (d.children fid).filterMap (fun item =>
              if !iH && headIs '.' item.title then none
              else if item.isFolder then none
              else some (mkItemPath pre item.title, item.id)))
    ∧ (depthStore0.filesOf).pairs = [("a.txt", 1)]
    ∧ (depthStoreU.filesOf).pairs = [("a.txt", 1), ("sub/b.txt", 3)] := by
  refine ⟨fun d iH mL fuel fid pre lvl => listFilesAux_desc_eq_filter d iH mL fuel fid pre lvl,
    fun d iH fuel fid pre => listFilesAux_depth_zero d iH fuel fid pre,
    by decide, by decide⟩

/-! ## Claim C4 -/

/-- C4: with hidden-inclusion disabled the traversal behaves exactly as
if every entry whose name begins with the hidden marker were absent from
the drive — hidden files are never yielded and hidden folders are never
descended into (first conjunct); on a drive with a hidden file, a hidden
folder containing a visible file, and a visible file, disabling
hidden-inclusion yields only the visible root file while enabling it
yields all three entries (last two conjuncts). -/
theorem c4_hidden_filtering :
    (∀ (d : Drive) (mL : Option Int) (fuel fid : Nat) (pre : String)
        (lvl : Int),
        listFilesAux d false mL fuel fid pre lvl
          = listFilesAux d.removeHidden true mL fuel fid pre lvl)
    ∧ ((hiddenStore false).filesOf).pairs = [("v.txt", 4)]
    ∧ ((hiddenStore true).filesOf).pairs
        = [(".hidden.txt", 1), (".hfold/x.txt", 3), ("v.txt", 4)] := by
  refine ⟨fun d mL fuel fid pre lvl => listFilesAux_removeHidden d mL fuel fid pre lvl,
    by decide, by decide⟩

/-! ## Claim C10 -/

/-- For every entry level at most the finite bound, the early-return
branch of the traversal is never reached, because every recursive call is
guarded by the strict descend comparison. -/
theorem listFilesAux_no_cutoff (d : Drive) (iH : Bool) (m : Int) :
    ∀ (fuel : Nat) (fid : Nat) (pre : String) (lvl : Int), lvl ≤ m →
      (listFilesAux d iH (some m) fuel fid pre lvl).cutoff = false := by
  intro fuel
  induction fuel with
  | zero => intro fid pre lvl _; rfl
  | succ fuel ih =>
    intro fid pre lvl hlvl
    have hcut : cutoffGuard (some m) lvl = false := by
      simp [cutoffGuard]; omega
    simp only [listFilesAux, hcut, if_false, Bool.false_eq_true,
      TravResult.append_cutoff, travFold_cutoff, Bool.or_eq_false_iff]
    refine ⟨trivial, ?_⟩
    rw [List.any_eq_false]
    intro r hr
    rw [List.mem_map] at hr
    obtain ⟨item, _, hstep⟩ := hr
    subst hstep
    by_cases ha : (!iH && headIs '.' item.title) = true
    · simp [ha, TravResult.empty]
    · by_cases hfo : item.isFolder = true
      · by_cases hg : descGuard (some m) lvl = true
        · have hlt : lvl < m := by
            simpa [descGuard] using hg
          simp [ha, hfo, hg,
            ih item.id (mkItemPath pre item.title) (lvl + 1) (by omega)]
        · simp [ha, hfo, hg]
      · simp [ha, hfo]

/-- C10: with a negative `max_levels` the traversal yields nothing and
makes no backend call — the early-return cutoff fires immediately at
level 0 (first conjunct); with any entry level at most `max_levels` (in
particular level 0 when `max_levels` is non-negative) the cutoff branch
is never taken, because every recursive call is guarded by the strict
comparison `level < max_levels` and therefore enters with
`level ≤ max_levels` (second conjunct). -/
theorem c10_depth_guards :
    (∀ (d : Drive) (iH : Bool) (m : Int) (fuel fid : Nat) (pre : String),
        m < 0 →
        (listFilesAux d iH (some m) fuel fid pre 0).pairs = []
        ∧ (listFilesAux d iH (some m) fuel fid pre 0).calls = [])
    ∧ (∀ (d : Drive) (iH : Bool) (m : Int) (fuel fid : Nat) (pre : String)
        (lvl : Int), lvl ≤ m →
        (listFilesAux d iH (some m) fuel fid pre lvl).cutoff = false) := by
  constructor
  · intro d iH m fuel fid pre hm
    cases fuel with
    | zero => exact ⟨rfl, rfl⟩
    | succ fuel =>
      have hcut : cutoffGuard (some m) 0 = true := by
        simp [cutoffGuard]; omega
      simp [listFilesAux, hcut]
  · intro d iH m fuel fid pre lvl hlvl
    exact listFilesAux_no_cutoff d iH m fuel fid pre lvl hlvl

/-- Closed instance of C10 at concrete inputs: `max_levels = -1` yields
nothing on the depth-example drive, and with `max_levels = 0` the cutoff
branch is never taken from level 0. -/
theorem c10_depth_guards_witness :
    ((listFilesAux depthDrive false (some (-1)) 5 0 "" 0).pairs = []
      ∧ (listFilesAux depthDrive false (some (-1)) 5 0 "" 0).calls = [])
    ∧ (listFilesAux depthDrive false (some 0) 5 0 "" 0).cutoff = false :=
  ⟨c10_depth_guards.1 depthDrive false (-1) 5 0 "" (by norm_num),
    c10_depth_guards.2 depthDrive false 0 5 0 "" 0 (by norm_num)⟩

/-! ## Write-resolver lemmas (claim C3) -/

/-- The folder resolver only ever appends nodes to the drive. -/
theorem getOrCreateFoldersAux_mono :
    ∀ (segs : List String) (d : Drive) (c : Nat),
      ∃ news, (getOrCreateFoldersAux d c segs).1.nodes = d.nodes ++ news := by
  intro segs
  induction segs with
  | nil => intro d c; exact ⟨[], by simp [getOrCreateFoldersAux]⟩
  | cons name rest ih =>
    intro d c
    cases hq : d.folderChildrenNamed c name with
    | cons f fs =>
      obtain ⟨news, hn⟩ := ih d f.id
      exact ⟨news, by simp [getOrCreateFoldersAux, hq, hn]⟩
    | nil =>
      obtain ⟨news, hn⟩ :=
        ih (d.createNode c name true []).1 (d.createNode c name true []).2
      refine ⟨⟨d.nextId, name, true, c, [], false⟩ :: news, ?_⟩
      simp only [getOrCreateFoldersAux, hq]
      simp only [Drive.createNode] at hn ⊢
      simp [hn]

/-- Resolving the same folder segments a second time, on the drive the
first resolution produced, changes nothing: it finds every segment (the
existence check runs before any creation), returns the same parent
identity, and performs only listing calls — no folder is created. -/
theorem getOrCreateFoldersAux_idem :
    ∀ (segs : List String) (d : Drive) (c : Nat),
      ∃ tr, getOrCreateFoldersAux (getOrCreateFoldersAux d c segs).1 c segs
          = ((getOrCreateFoldersAux d c segs).1,
             (getOrCreateFoldersAux d c segs).2.1, tr)
        ∧ ∀ e ∈ tr, ∃ p, e = CallEv.listChildren p := by
  intro segs
  induction segs with
  | nil =>
    intro d c
    exact ⟨[], by simp [getOrCreateFoldersAux], by simp⟩
  | cons name rest ih =>
    intro d c
    cases hq : d.folderChildrenNamed c name with
    | cons f fs =>
      obtain ⟨news, hmono⟩ := getOrCreateFoldersAux_mono rest d f.id
      have hq2 : (getOrCreateFoldersAux d f.id rest).1.folderChildrenNamed c name
          = f :: (fs ++ (news.filter (fun n =>
              n.parent == c && n.title == name && n.isFolder && !n.trashed))) := by
        simp only [Drive.folderChildrenNamed] at hq ⊢
        simp [hmono, List.filter_append, hq]
      obtain ⟨tr, htr, htr2⟩ := ih d f.id
      refine ⟨CallEv.listChildren c :: tr, ?_, ?_⟩
      · simp only [getOrCreateFoldersAux, hq, hq2, htr]
      · intro e he
        rcases List.mem_cons.mp he with h | h
        · exact ⟨c, h⟩
        · exact htr2 e h
    | nil =>
      obtain ⟨news, hmono⟩ :=
        getOrCreateFoldersAux_mono rest (d.createNode c name true []).1
          (d.createNode c name true []).2
      have hq2 : (getOrCreateFoldersAux (d.createNode c name true []).1
            (d.createNode c name true []).2 rest).1.folderChildrenNamed c name
          = ⟨d.nextId, name, true, c, [], false⟩ :: (news.filter (fun n =>
              n.parent == c && n.title == name && n.isFolder && !n.trashed)) := by
        simp only [Drive.folderChildrenNamed, Drive.createNode] at hq hmono ⊢
        simp [hmono, List.filter_append, hq]
      obtain ⟨tr, htr, htr2⟩ := ih (d.createNode c name true []).1
        (d.createNode c name true []).2
      refine ⟨CallEv.listChildren c :: tr, ?_, ?_⟩
      · simp only [getOrCreateFoldersAux, hq, hq2]
        simp only [Drive.createNode] at htr ⊢
        simp [htr]
      · intro e he
        rcases List.mem_cons.mp he with h | h
        · exact ⟨c, h⟩
        · exact htr2 e h

/-! ## Claim C3 -/

/-- C3: a path with no folder segments resolves to the root identity
with no backend call (first conjunct); re-resolving the same folder
segments on the drive produced by a first resolution creates nothing —
the drive is unchanged, the parent identity is the same, and only listing
calls are made, because the existence check runs before any creation
(second conjunct); concretely, writing `a/b/x.txt` and then `a/b/y.txt`
into a store over an empty drive leaves exactly one folder named `a` and
one folder named `b` (third conjunct). -/
theorem c3_idempotent_folders :
    (∀ (d : Drive) (root : Nat),
        getOrCreateFolders d root "file.txt" = (d, root, []))
    ∧ (∀ (segs : List String) (d : Drive) (c : Nat),
        ∃ tr, getOrCreateFoldersAux (getOrCreateFoldersAux d c segs).1 c segs
            = ((getOrCreateFoldersAux d c segs).1,
               (getOrCreateFoldersAux d c segs).2.1, tr)
          ∧ ∀ e ∈ tr, ∃ p, e = CallEv.listChildren p)
    ∧ ((doubleWriteStore.drive.nodes.filter
          (fun n => n.isFolder && n.title == "a")).length = 1
        ∧ (doubleWriteStore.drive.nodes.filter
          (fun n => n.isFolder && n.title == "b")).length = 1) := by
  refine ⟨?_, getOrCreateFoldersAux_idem, by decide, by decide⟩
  intro d root
  have h : (splitSlash "file.txt").dropLast = ([] : List String) := by decide
  simp [getOrCreateFolders, h, getOrCreateFoldersAux]

/-! ## Cache and error-path lemmas (claims C5, C6, C8, C9) -/

/-- After `_files` runs, the resulting instance carries the built dict in
its cache. -/
theorem filesM_fileCache (s : GDStore) :
    ((s.filesM).2.1).fileCache = some (s.filesM).1 := by
  cases h : s.fileCache <;> simp [GDStore.filesM, h]

/-- `__getitem__` never changes the instance state beyond what building
`_files` does. -/
theorem getItem_store (s : GDStore) (key : String) :
    (s.getItem key).2.1 = (s.filesM).2.1 := by
  simp only [GDStore.getItem]
  split
  · split <;> rfl
  · rfl

/-- `__contains__` never changes the instance state beyond what building
`_files` does. -/
theorem containsKey_store (s : GDStore) (key : String) :
    (s.containsKey key).2.1 = (s.filesM).2.1 := rfl

/-! ## Claim C5 -/

/-- C5: every successful write and every successful delete discards the
whole cached index (`_file_cache` is reset to `None`, never patched;
first two conjuncts); when the cache is absent the next `_files` access
reruns the full traversal, whose backend calls are exactly the traversal
listing calls (third conjunct), and — as long as the configured depth
bound does not negative out the whole traversal — that rerun starts by
listing the children of the root against the remote tree again (fourth
conjunct). -/
theorem c5_invalidation :
    (∀ (s : GDStore) (key : String) (v : PyVal),
        (GDStore.setItem s key v).1 = Except.ok () →
        (GDStore.setItem s key v).2.1.fileCache = none)
    ∧ (∀ (s : GDStore) (key : String),
        (GDStore.delItem s key).1 = Except.ok () →
        (GDStore.delItem s key).2.1.fileCache = none)
    ∧ (∀ s : GDStore, s.fileCache = none →
        (s.filesM).2.2 = (s.filesOf).calls)
    ∧ (∀ s : GDStore, s.fileCache = none →
        (∀ m : Int, s.maxLevels = some m → 0 ≤ m) →
        ∃ rest, (s.filesM).2.2 = CallEv.listChildren s.folderId :: rest) := by
  refine ⟨?_, ?_, ?_, ?_⟩
  · intro s key v h
    cases v with
    | bytes _ =>
      simp only [GDStore.setItem]
      split <;> rfl
    | str s' => simp [GDStore.setItem] at h
    | other t => simp [GDStore.setItem] at h
  · intro s key h
    simp only [GDStore.delItem]
    split
    · rfl
    · simp only [GDStore.delItem] at h
      split at h
      · rename_i hk hk2
        exact absurd hk2 hk
      · exact absurd h (by simp)
  · intro s h
    simp [GDStore.filesM, h]
  · intro s h hm
    have hcut : cutoffGuard s.maxLevels 0 = false := by
      cases hmL : s.maxLevels with
      | none => rfl
      | some m =>
        have := hm m hmL
        simp only [cutoffGuard, gt_iff_lt, decide_eq_false_iff_not, not_lt]
        omega
    simp only [GDStore.filesM, h, GDStore.filesOf, listFilesAux, hcut,
      Bool.false_eq_true, if_false, TravResult.append_calls, travFold_calls]
    exact ⟨_, rfl⟩

/-- Closed instances of C5: a successful write on the empty store clears
the cache; a successful delete on a store with a one-entry cache clears
the cache; the rebuild on the empty store with no cache issues its
listing call for the root. -/
theorem c5_invalidation_witness :
    ((GDStore.setItem (store0 false) "x" (PyVal.bytes [])).2.1.fileCache = none)
    ∧ ((GDStore.delItem ⟨⟨[], 1⟩, 0, none, false, some [("k", 5)]⟩ "k").2.1.fileCache = none)
    ∧ (∃ rest, ((store0 false).filesM).2.2 = CallEv.listChildren 0 :: rest) :=
  ⟨c5_invalidation.1 (store0 false) "x" (PyVal.bytes []) (by decide),
    c5_invalidation.2.1 ⟨⟨[], 1⟩, 0, none, false, some [("k", 5)]⟩ "k" (by decide),
    c5_invalidation.2.2.2 (store0 false) rfl (fun m hm => Option.noConfusion hm)⟩

/-! ## Claim C6 -/

/-- C6: writing any value that is not a byte sequence fails with the
`TypeError` raised by the type guard, with the instance unchanged and no
backend call performed — the guard runs before folder resolution, the
existence listing, and the upload. -/
theorem c6_type_guard :
    ∀ (s : GDStore) (key : String) (v : PyVal), (∀ b, v ≠ PyVal.bytes b) →
      GDStore.setItem s key v
        = (Except.error (PyErr.typeError v.typeName), s, []) := by
  intro s key v hv
  cases v with
  | bytes b => exact absurd rfl (hv b)
  | str s' => rfl
  | other t => rfl

/-- Closed instance of C6: writing a `str` to the empty store fails with
`TypeError` and makes no backend call. -/
theorem c6_type_guard_witness :
    GDStore.setItem (store0 false) "p" (PyVal.str "not bytes")
      = (Except.error (PyErr.typeError "str"), store0 false, []) :=
  c6_type_guard (store0 false) "p" (PyVal.str "not bytes")
    (fun _ h => PyVal.noConfusion h)

/-! ## Claim C8 -/

/-- C8: with a populated cache, `_files` returns the cached mapping with
no backend call and no state change (first conjunct); immediately after
any `_files` access, a second access returns the same mapping with no
backend call — the traversal runs at most once between invalidations
(second conjunct); after a read or a containment test the cache still
holds the mapping `_files` built (third and fourth conjuncts). -/
theorem c8_memoized :
    (∀ (s : GDStore) (m : List (String × Nat)), s.fileCache = some m →
        s.filesM = (m, s, []))
    ∧ (∀ s : GDStore, ((s.filesM).2.1).filesM
        = ((s.filesM).1, (s.filesM).2.1, []))
    ∧ (∀ (s : GDStore) (key : String),
        ((s.getItem key).2.1).fileCache = some (s.filesM).1)
    ∧ (∀ (s : GDStore) (key : String),
        ((s.containsKey key).2.1).filesM
          = ((s.filesM).1, (s.containsKey key).2.1, [])) := by
  have h1 : ∀ (s : GDStore) (m : List (String × Nat)), s.fileCache = some m →
      s.filesM = (m, s, []) := by
    intro s m h
    simp [GDStore.filesM, h]
  have h2 : ∀ s : GDStore, ((s.filesM).2.1).filesM
      = ((s.filesM).1, (s.filesM).2.1, []) :=
    fun s => h1 (s.filesM).2.1 (s.filesM).1 (filesM_fileCache s)
  refine ⟨h1, h2, ?_, ?_⟩
  · intro s key
    rw [getItem_store]
    exact filesM_fileCache s
  · intro s key
    rw [containsKey_store]
    exact h2 s

/-- Closed instance of C8: on a store with a populated cache, `_files`
returns the cached mapping, the same instance, and no backend calls. -/
theorem c8_memoized_witness :
    GDStore.filesM ⟨⟨[], 1⟩, 0, none, false, some [("k", 5)]⟩
      = ([("k", 5)], ⟨⟨[], 1⟩, 0, none, false, some [("k", 5)]⟩, []) :=
  c8_memoized.1 ⟨⟨[], 1⟩, 0, none, false, some [("k", 5)]⟩ [("k", 5)] rfl

/-! ## Claim C9 -/

/-- C9: on an instance whose index is built, a read or delete of an
absent key fails with `KeyError` while leaving the instance — cached
index included — completely unchanged, performing no backend call and no
invalidation. -/
theorem c9_notfound_preserves :
    ∀ (s : GDStore) (m : List (String × Nat)) (key : String),
      s.fileCache = some m → hasKey m key = false →
      s.getItem key = (Except.error (PyErr.keyError key), s, [])
      ∧ s.delItem key = (Except.error (PyErr.keyError key), s, []) := by
  intro s m key hc hk
  have h1 : s.filesM = (m, s, []) := by simp [GDStore.filesM, hc]
  constructor
  · simp [GDStore.getItem, h1, hk]
  · simp [GDStore.delItem, h1, hk]

/-- Closed instance of C9: reading and deleting an absent key on a store
with a one-entry cache raise `KeyError` and leave the store untouched. -/
theorem c9_notfound_preserves_witness :
    GDStore.getItem ⟨⟨[], 1⟩, 0, none, false, some [("k", 5)]⟩ "absent"
        = (Except.error (PyErr.keyError "absent"),
           ⟨⟨[], 1⟩, 0, none, false, some [("k", 5)]⟩, [])
    ∧ GDStore.delItem ⟨⟨[], 1⟩, 0, none, false, some [("k", 5)]⟩ "absent"
        = (Except.error (PyErr.keyError "absent"),
           ⟨⟨[], 1⟩, 0, none, false, some [("k", 5)]⟩, []) :=
  c9_notfound_preserves ⟨⟨[], 1⟩, 0, none, false, some [("k", 5)]⟩
    [("k", 5)] "absent" rfl (by decide)

/-! ## Round-trip lemmas (claims C2 and C7) -/

/-- The write-side latin-1 decode and the read-side latin-1 encode
compose to the identity on byte sequences. -/
theorem encodeLatin1_decodeLatin1 (b : List Byte) :
    encodeLatin1 (decodeLatin1 b) = some b := by
  induction b with
  | nil => rfl
  | cons a l ih =>
    simp [decodeLatin1, encodeLatin1, a.isLt] at ih ⊢
    simp [ih]

theorem chainFolders_parent (segs : List String) :
    ∀ (c i : Nat) (n : Node), n ∈ chainFolders segs c i →
      n.parent = c ∨ (i ≤ n.parent ∧ n.parent + 1 < i + segs.length) := by
  induction segs with
  | nil => intro c i n hn; simp [chainFolders] at hn
  | cons s rest ih =>
    intro c i n hn
    simp only [chainFolders, List.mem_cons] at hn
    rcases hn with h | h
    · left; rw [h]
    · rcases ih i (i + 1) n h with h2 | h2
      · right
        constructor
        · omega
        · have : rest ≠ [] := by
            intro hr
            rw [hr] at h
            simp [chainFolders] at h
          have : 0 < rest.length := List.length_pos.mpr this
          simp only [List.length_cons]
          omega
      · right
        simp only [List.length_cons]
        omega

theorem chainFolders_id (segs : List String) :
    ∀ (c i : Nat) (n : Node), n ∈ chainFolders segs c i →
      i ≤ n.id ∧ n.id < i + segs.length := by
  induction segs with
  | nil => intro c i n hn; simp [chainFolders] at hn
  | cons s rest ih =>
    intro c i n hn
    simp only [chainFolders, List.mem_cons] at hn
    rcases hn with h | h
    · rw [h]; simp only [List.length_cons]; omega
    · have := ih i (i + 1) n h
      simp only [List.length_cons]
      omega

theorem chainLast_succ (rest : List String) (i : Nat) :
    chainLast rest i (i + 1) = i + rest.length := by
  cases rest with
  | nil => rfl
  | cons s r => simp only [chainLast, List.length_cons]; omega

/-- Resolving segments against a drive in which no node is a child of the
starting identity or of any identity at or above the fresh counter always
takes the creation branch: it appends exactly the folder chain, returns
the last chain identity, and performs one listing and one creation per
segment. -/
theorem getOrCreateFoldersAux_fresh :
    ∀ (segs : List String) (ns : List Node) (c i : Nat),
      c < i → (∀ n ∈ ns, n.parent < c) →
      getOrCreateFoldersAux ⟨ns, i⟩ c segs
        = (⟨ns ++ chainFolders segs c i, i + segs.length⟩,
           chainLast segs c i, chainTrace segs c i) := by
  intro segs
  induction segs with
  | nil =>
    intro ns c i _ _
    simp [getOrCreateFoldersAux, chainFolders, chainLast, chainTrace]
  | cons s rest ih =>
    intro ns c i hci hns
    have hq : Drive.folderChildrenNamed ⟨ns, i⟩ c s = [] := by
      rw [Drive.folderChildrenNamed, List.filter_eq_nil_iff]
      intro n hn
      have := hns n hn
      simp only [Bool.and_eq_true, beq_iff_eq, Bool.not_eq_true]
      intro hcon
      omega
    have hrec := ih (ns ++ [⟨i, s, true, c, [], false⟩]) i (i + 1)
      (Nat.lt_succ_self i)
      (by
        intro n hn
        rcases List.mem_append.mp hn with h | h
        · have := hns n h; omega
        · simp only [List.mem_singleton] at h
          rw [h]
          exact hci)
    have h1 : (ns ++ [(⟨i, s, true, c, [], false⟩ : Node)])
          ++ chainFolders rest i (i + 1)
        = ns ++ chainFolders (s :: rest) c i := by
      simp [chainFolders, List.append_assoc]
    have h2 : i + 1 + rest.length = i + (s :: rest).length := by
      simp only [List.length_cons]; omega
    have h3 : chainLast rest i (i + 1) = chainLast (s :: rest) c i := by
      rw [chainLast_succ]; rfl
    have h4 : CallEv.listChildren c :: CallEv.createNode c s true
          :: chainTrace rest i (i + 1)
        = chainTrace (s :: rest) c i := rfl
    simp only [getOrCreateFoldersAux, hq, Drive.createNode]
    rw [hrec, h1, h2, h3, h4]

/-- In the drive left by a fresh resolution, the last chain identity has
no child at all, so in particular no child with the leaf name. -/
theorem chain_no_child (segs : List String) (ns : List Node) (c i N : Nat)
    (leaf : String) (hns : ∀ n ∈ ns, n.parent < c) (hci : c < i) :
    Drive.childrenNamed ⟨ns ++ chainFolders segs c i, N⟩
      (chainLast segs c i) leaf = [] := by
  rw [Drive.childrenNamed, List.filter_eq_nil_iff]
  intro n hn
  simp only [Bool.and_eq_true, beq_iff_eq, Bool.not_eq_true]
  intro hcon
  have hparent : n.parent = chainLast segs c i := hcon.1.1
  rcases List.mem_append.mp hn with h | h
  · have hlt := hns n h
    cases segs with
    | nil => simp only [chainLast] at hparent; omega
    | cons s rest =>
      simp only [chainLast] at hparent
      omega
  · rcases chainFolders_parent segs c i n h with h2 | h2
    · cases segs with
      | nil => simp [chainFolders] at h
      | cons s rest =>
        simp only [chainLast] at hparent
        omega
    · cases segs with
      | nil => simp [chainFolders] at h
      | cons s rest =>
        simp only [chainLast] at hparent
        simp only [List.length_cons] at h2
        omega

theorem filter_children_nil (l : List Node) (c : Nat)
    (h : ∀ n ∈ l, n.parent ≠ c) :
    l.filter (fun n => n.parent == c && !n.trashed) = [] := by
  rw [List.filter_eq_nil_iff]
  intro n hn
  simp only [Bool.and_eq_true, beq_iff_eq, Bool.not_eq_true, not_and]
  intro hc
  exact absurd hc (h n hn)

/-- Traversing (with unbounded depth) a drive that consists of inert
nodes, a fresh folder chain, and the single file the write created at the
end of that chain yields exactly that file, keyed by the join of the
chain segments and the leaf name. -/
theorem trav_chain_file :
    ∀ (rest : List String) (done : List Node) (c i N : Nat)
      (pre leaf : String) (content : List Nat) (lvl : Int) (fuel : Nat)
      (iH : Bool),
      (∀ n ∈ done, n.parent < c) → c < i →
      (∀ s ∈ rest, headIs '.' s = false) → headIs '.' leaf = false →
      rest.length + 1 ≤ fuel →
      (listFilesAux ⟨done ++ chainFolders rest c i
          ++ [⟨i + rest.length, leaf, false, chainLast rest c i, content, false⟩],
          N⟩ iH none fuel c pre lvl).pairs
        = [(List.foldl mkItemPath pre (rest ++ [leaf]), i + rest.length)] := by
  intro rest
  induction rest with
  | nil =>
    intro done c i N pre leaf content lvl fuel iH hdone hci _ hleaf hfuel
    cases fuel with
    | zero => omega
    | succ f =>
      have hsplit : done ++ chainFolders [] c i
          ++ [(⟨i + List.length ([] : List String), leaf, false,
              chainLast [] c i, content, false⟩ : Node)]
          = done ++ [(⟨i + List.length ([] : List String), leaf, false,
              chainLast [] c i, content, false⟩ : Node)] := by
        simp [chainFolders]
      have hch : Drive.children ⟨done ++ chainFolders [] c i
          ++ [⟨i + List.length ([] : List String), leaf, false,
              chainLast [] c i, content, false⟩], N⟩ c
          = [⟨i + List.length ([] : List String), leaf, false,
              chainLast [] c i, content, false⟩] := by
        rw [Drive.children, hsplit, List.filter_append,
          filter_children_nil done c (fun n hn => by have := hdone n hn; omega)]
        simp [chainLast]
      simp only [listFilesAux, cutoffGuard, Bool.false_eq_true, if_false]
      rw [hch]
      simp [hleaf, TravResult.empty]
  | cons s rest ih =>
    intro done c i N pre leaf content lvl fuel iH hdone hci hrest hleaf hfuel
    cases fuel with
    | zero => simp at hfuel
    | succ f =>
      have hn0parent : ∀ n ∈ chainFolders rest i (i + 1), n.parent ≠ c := by
        intro n hn
        rcases chainFolders_parent rest i (i + 1) n hn with h | h
        · omega
        · omega
      have hfp : ∀ n ∈ [(⟨i + (s :: rest).length, leaf, false,
          chainLast (s :: rest) c i, content, false⟩ : Node)], n.parent ≠ c := by
        intro n hn
        simp only [List.mem_singleton] at hn
        rw [hn]
        show chainLast (s :: rest) c i ≠ c
        show i + rest.length ≠ c
        omega
      have hsplit : done ++ chainFolders (s :: rest) c i
          ++ [(⟨i + (s :: rest).length, leaf, false,
              chainLast (s :: rest) c i, content, false⟩ : Node)]
          = done ++ ((⟨i, s, true, c, [], false⟩ : Node)
            :: (chainFolders rest i (i + 1)
              ++ [(⟨i + (s :: rest).length, leaf, false,
                  chainLast (s :: rest) c i, content, false⟩ : Node)])) := by
        simp [chainFolders]
      have hp0 : (((⟨i, s, true, c, [], false⟩ : Node)).parent == c
          && !((⟨i, s, true, c, [], false⟩ : Node)).trashed) = true := by simp
      have hch : Drive.children ⟨done ++ chainFolders (s :: rest) c i
          ++ [⟨i + (s :: rest).length, leaf, false,
              chainLast (s :: rest) c i, content, false⟩], N⟩ c
          = [⟨i, s, true, c, [], false⟩] := by
        rw [Drive.children, hsplit, List.filter_append,
          filter_children_nil done c (fun n hn => by have := hdone n hn; omega),
          List.filter_cons, if_pos hp0, List.filter_append,
          filter_children_nil _ c hn0parent, filter_children_nil _ c hfp]
        rfl
      have hIH := ih (done ++ [⟨i, s, true, c, [], false⟩]) i (i + 1) N
        (mkItemPath pre s) leaf content (lvl + 1) f iH
        (by
          intro n hn
          rcases List.mem_append.mp hn with h | h
          · have := hdone n h; omega
          · simp only [List.mem_singleton] at h
            rw [h]; exact hci)
        (Nat.lt_succ_self i)
        (fun t ht => hrest t (List.mem_cons_of_mem s ht))
        hleaf
        (by simp only [List.length_cons] at hfuel; omega)
      have hlist : (done ++ [(⟨i, s, true, c, [], false⟩ : Node)])
            ++ chainFolders rest i (i + 1)
            ++ [(⟨i + 1 + rest.length, leaf, false,
                chainLast rest i (i + 1), content, false⟩ : Node)]
          = done ++ chainFolders (s :: rest) c i
            ++ [(⟨i + (s :: rest).length, leaf, false,
                chainLast (s :: rest) c i, content, false⟩ : Node)] := by
        have e1 : i + 1 + rest.length = i + (s :: rest).length := by
          simp only [List.length_cons]; omega
        have e2 : chainLast rest i (i + 1) = chainLast (s :: rest) c i := by
          rw [chainLast_succ]; rfl
        rw [e1, e2]
        simp [chainFolders, List.append_assoc]
      rw [hlist] at hIH
      have hs : headIs '.' s = false := hrest s (List.mem_cons_self s rest)
      simp only [listFilesAux, cutoffGuard, Bool.false_eq_true, if_false]
      rw [hch]
      simp only [List.map_cons, List.map_nil, travFold_cons, travFold_nil,
        TravResult.append_empty, TravResult.append_pairs, travFold_pairs,
        List.map_nil, List.flatten_nil, List.append_nil, List.nil_append]
      simp only [hs, descGuard, Bool.and_false, Bool.false_eq_true, if_false,
        if_true, and_false, false_and]
      simp only [hIH, TravResult.append_pairs]
      simp only [List.nil_append, List.cons_append, List.foldl_cons,
        List.length_cons, Prod.mk.injEq, List.cons.injEq, eq_self_iff_true,
        true_and, and_true]
      omega

/-- Traversing (with unbounded depth) a drive that consists of inert
nodes and a bare folder chain with no file yields nothing. -/
theorem trav_chain_nofile :
    ∀ (rest : List String) (done : List Node) (c i N : Nat)
      (pre : String) (lvl : Int) (fuel : Nat) (iH : Bool),
      (∀ n ∈ done, n.parent < c) → c < i →
      rest.length + 1 ≤ fuel →
      (listFilesAux ⟨done ++ chainFolders rest c i, N⟩ iH none fuel c pre lvl).pairs
        = [] := by
  intro rest
  induction rest with
  | nil =>
    intro done c i N pre lvl fuel iH hdone hci hfuel
    cases fuel with
    | zero => omega
    | succ f =>
      have hch : Drive.children ⟨done ++ chainFolders [] c i, N⟩ c = [] := by
        rw [Drive.children]
        have hsplit : done ++ chainFolders [] c i = done := by simp [chainFolders]
        rw [hsplit]
        exact filter_children_nil done c (fun n hn => by have := hdone n hn; omega)
      simp only [listFilesAux, cutoffGuard, Bool.false_eq_true, if_false]
      rw [hch]
      simp
  | cons s rest ih =>
    intro done c i N pre lvl fuel iH hdone hci hfuel
    cases fuel with
    | zero => simp at hfuel
    | succ f =>
      have hn0parent : ∀ n ∈ chainFolders rest i (i + 1), n.parent ≠ c := by
        intro n hn
        rcases chainFolders_parent rest i (i + 1) n hn with h | h
        · omega
        · omega
      have hsplit : done ++ chainFolders (s :: rest) c i
          = done ++ ((⟨i, s, true, c, [], false⟩ : Node)
            :: chainFolders rest i (i + 1)) := by
        simp [chainFolders]
      have hp0 : (((⟨i, s, true, c, [], false⟩ : Node)).parent == c
          && !((⟨i, s, true, c, [], false⟩ : Node)).trashed) = true := by simp
      have hch : Drive.children ⟨done ++ chainFolders (s :: rest) c i, N⟩ c
          = [⟨i, s, true, c, [], false⟩] := by
        rw [Drive.children, hsplit, List.filter_append,
          filter_children_nil done c (fun n hn => by have := hdone n hn; omega),
          List.filter_cons, if_pos hp0, filter_children_nil _ c hn0parent]
        rfl
      have hIH := ih (done ++ [⟨i, s, true, c, [], false⟩]) i (i + 1) N
        (mkItemPath pre s) (lvl + 1) f iH
        (by
          intro n hn
          rcases List.mem_append.mp hn with h | h
          · have := hdone n h; omega
          · simp only [List.mem_singleton] at h
            rw [h]; exact hci)
        (Nat.lt_succ_self i)
        (by simp only [List.length_cons] at hfuel; omega)
      have hlist : (done ++ [(⟨i, s, true, c, [], false⟩ : Node)])
            ++ chainFolders rest i (i + 1)
          = done ++ chainFolders (s :: rest) c i := by
        simp [chainFolders, List.append_assoc]
      rw [hlist] at hIH
      simp only [listFilesAux, cutoffGuard, Bool.false_eq_true, if_false]
      rw [hch]
      by_cases hs : headIs '.' s = true
      · cases iH with
        | false => simp [hs, TravResult.empty]
        | true => simp [hs, descGuard, hIH, TravResult.empty]
      · simp only [Bool.not_eq_true] at hs
        simp only [List.map_cons, List.map_nil, travFold_cons, travFold_nil,
          TravResult.append_empty, TravResult.append_pairs, List.nil_append]
        simp only [hs, descGuard, Bool.and_false, Bool.false_eq_true, if_false,
          if_true, and_false, false_and]
        simp [hIH]

/-- Fetching the content of the freshly created file at the end of the
chain returns exactly the stored content. -/
theorem getContent_append_file (chain : List Node) (fid N : Nat)
    (leaf : String) (parent : Nat) (content : List Nat)
    (hids : ∀ n ∈ chain, n.id ≠ fid) :
    Drive.getContent ⟨chain ++ [⟨fid, leaf, false, parent, content, false⟩], N⟩ fid
      = content := by
  rw [Drive.getContent, List.find?_append]
  have h1 : chain.find? (fun n => n.id == fid) = none := by
    rw [List.find?_eq_none]
    intro n hn
    simpa using hids n hn
  rw [h1]
  simp [List.find?]

theorem chainFolders_length (segs : List String) :
    ∀ c i, (chainFolders segs c i).length = segs.length := by
  induction segs with
  | nil => intro c i; rfl
  | cons s rest ih =>
    intro c i
    simp [chainFolders, ih i (i + 1)]

/-- Writing bytes to a fresh key on a store over an empty drive creates
the folder chain and the file, resets the cache, and reports the calls
made: resolution calls, one existence listing, one file creation. -/
theorem setItem_store0 (iH : Bool) (b : List Byte) (key : String)
    (segs : List String) (h1 : splitSlash key = segs) (h3 : segs ≠ []) :
    GDStore.setItem (store0 iH) key (PyVal.bytes b)
      = (Except.ok (),
         ⟨⟨chainFolders segs.dropLast 0 1
             ++ [⟨1 + segs.dropLast.length, segs.getLast h3, false,
                 chainLast segs.dropLast 0 1, decodeLatin1 b, false⟩],
           1 + segs.dropLast.length + 1⟩, 0, none, iH, none⟩,
         chainTrace segs.dropLast 0 1
           ++ [CallEv.listChildren (chainLast segs.dropLast 0 1),
               CallEv.createNode (chainLast segs.dropLast 0 1)
                 (segs.getLast h3) false]) := by
  have hr : getOrCreateFolders (⟨[], 1⟩ : Drive) 0 key
      = (⟨chainFolders segs.dropLast 0 1, 1 + segs.dropLast.length⟩,
         chainLast segs.dropLast 0 1, chainTrace segs.dropLast 0 1) := by
    rw [getOrCreateFolders, h1]
    have := getOrCreateFoldersAux_fresh segs.dropLast [] 0 1 (by omega)
      (by intro n hn; simp at hn)
    simpa [Nat.add_comm] using this
  have hbase : basename key = segs.getLast h3 := by
    rw [basename, h1]
    simp [List.getLastD_eq_getLast?, List.getLast?_eq_getLast segs h3]
  have hq : Drive.childrenNamed
      ⟨chainFolders segs.dropLast 0 1, 1 + segs.dropLast.length⟩
      (chainLast segs.dropLast 0 1) (segs.getLast h3) = [] := by
    have := chain_no_child segs.dropLast [] 0 1 (1 + segs.dropLast.length)
      (segs.getLast h3) (by intro n hn; simp at hn) (by omega)
    simpa using this
  simp only [GDStore.setItem, store0, hr, hbase, hq, Drive.createNode]

/-- Listing a drive holding exactly a folder chain and the file the
write created yields the one key built by joining the segment names. -/
theorem filesOf_chain_file (iH : Bool) (fsegs : List String) (leaf : String)
    (content : List Nat) (N : Nat)
    (hf : ∀ t ∈ fsegs, headIs '.' t = false) (hl : headIs '.' leaf = false) :
    (GDStore.filesOf ⟨⟨chainFolders fsegs 0 1
        ++ [⟨1 + fsegs.length, leaf, false, chainLast fsegs 0 1, content, false⟩],
        N⟩, 0, none, iH, none⟩).pairs
      = [(List.foldl mkItemPath "" (fsegs ++ [leaf]), 1 + fsegs.length)] := by
  rw [GDStore.filesOf]
  have := trav_chain_file fsegs [] 0 1 N "" leaf content 0
    ((chainFolders fsegs 0 1
      ++ [(⟨1 + fsegs.length, leaf, false, chainLast fsegs 0 1, content,
          false⟩ : Node)]).length + 1)
    iH (by intro n hn; simp at hn) (by omega) hf hl
    (by simp [chainFolders_length])
  simpa [Nat.add_comm] using this

/-- Listing a drive holding only a bare folder chain yields nothing. -/
theorem filesOf_chain_nofile (iH : Bool) (fsegs : List String) (N : Nat) :
    (GDStore.filesOf ⟨⟨chainFolders fsegs 0 1, N⟩, 0, none, iH, none⟩).pairs
      = [] := by
  rw [GDStore.filesOf]
  have := trav_chain_nofile fsegs [] 0 1 N "" 0
    ((chainFolders fsegs 0 1).length + 1) iH
    (by intro n hn; simp at hn) (by omega)
    (by simp [chainFolders_length])
  simpa using this

/-! ## Claim C2 -/

/-- C2 fails as stated for arbitrary paths: with hidden-inclusion
disabled (the default), writing to the path `.h` succeeds but the
following read raises `KeyError`, because the traversal that rebuilds the
index skips hidden-marked names while the write path performs no such
check. -/
theorem c2_round_trip_counterexample :
    (GDStore.setItem (store0 false) ".h" (PyVal.bytes [])).1 = Except.ok ()
    ∧ (GDStore.getItem
        ((GDStore.setItem (store0 false) ".h" (PyVal.bytes [])).2.1) ".h").1
        = Except.error (PyErr.keyError ".h") := by
  constructor
  · rfl
  · rfl

/-- C2 (amended): on a store with unbounded depth over an empty drive,
for every byte sequence `b` and every key whose slash-split segments are
non-hidden and rejoin to the key itself (which excludes exactly the
pathological keys of the counterexample: hidden-marked segments and
empty/degenerate segments), `write(key, b)` succeeds and the following
`read(key)` returns exactly `b`; moreover the write-side latin-1 decode
and the read-side latin-1 encode compose to the identity on bytes, so
the read returns the backend content unmodified. -/
theorem c2_round_trip (iH : Bool) (b : List Byte) (key : String)
    (segs : List String) (h1 : splitSlash key = segs)
    (h2 : pathOfSegs segs = key) (h3 : segs ≠ [])
    (h4 : ∀ t ∈ segs, headIs '.' t = false) :
    (GDStore.setItem (store0 iH) key (PyVal.bytes b)).1 = Except.ok ()
    ∧ (GDStore.getItem ((GDStore.setItem (store0 iH) key (PyVal.bytes b)).2.1)
        key).1 = Except.ok b
    ∧ (∀ bs : List Byte, encodeLatin1 (decodeLatin1 bs) = some bs) := by
  have hset := setItem_store0 iH b key segs h1 h3
  have hl : headIs '.' (segs.getLast h3) = false := h4 _ (List.getLast_mem h3)
  have hf : ∀ t ∈ segs.dropLast, headIs '.' t = false :=
    fun t ht => h4 t (List.dropLast_subset segs ht)
  refine ⟨by rw [hset], ?_, fun bs => encodeLatin1_decodeLatin1 bs⟩
  rw [hset]
  have hpairs := filesOf_chain_file iH segs.dropLast (segs.getLast h3)
    (decodeLatin1 b) (1 + segs.dropLast.length + 1) hf hl
  rw [List.dropLast_append_getLast h3] at hpairs
  have h2' : List.foldl mkItemPath "" segs = key := h2
  rw [h2'] at hpairs
  have hids : ∀ n ∈ chainFolders segs.dropLast 0 1,
      n.id ≠ 1 + segs.dropLast.length := by
    intro n hn
    have := chainFolders_id segs.dropLast 0 1 n hn
    omega
  have hgc := getContent_append_file (chainFolders segs.dropLast 0 1)
    (1 + segs.dropLast.length) (1 + segs.dropLast.length + 1)
    (segs.getLast h3) (chainLast segs.dropLast 0 1) (decodeLatin1 b) hids
  simp only [GDStore.getItem, GDStore.filesM]
  rw [hpairs]
  have hd : dictOf [(key, 1 + segs.dropLast.length)]
      = [(key, 1 + segs.dropLast.length)] := rfl
  rw [hd]
  have hhk : hasKey [(key, 1 + segs.dropLast.length)] key = true := by
    simp [hasKey]
  have hgv : getVal [(key, 1 + segs.dropLast.length)] key
      = 1 + segs.dropLast.length := by
    simp [getVal, List.find?]
  rw [hhk]
  simp only [if_true, hgv, hgc, encodeLatin1_decodeLatin1]

/-- Closed instance of C2 (amended): writing one byte to `a/b.txt` on an
empty store and reading it back returns that byte. -/
theorem c2_round_trip_witness :
    (GDStore.setItem (store0 true) "a/b.txt" (PyVal.bytes [(104 : Byte)])).1
      = Except.ok ()
    ∧ (GDStore.getItem
        ((GDStore.setItem (store0 true) "a/b.txt"
          (PyVal.bytes [(104 : Byte)])).2.1) "a/b.txt").1
        = Except.ok [(104 : Byte)]
    ∧ (∀ bs : List Byte, encodeLatin1 (decodeLatin1 bs) = some bs) :=
  c2_round_trip true [(104 : Byte)] "a/b.txt" ["a", "b.txt"]
    (by decide) (by decide) (by decide) (by decide)

/-! ## Claim C7 -/

/-- C7: delete fails with `KeyError` exactly when the key is absent from
the current index (first conjunct); on a present key it succeeds, deletes
the node the index maps the key to, and discards the cache (second
conjunct); and in the write-then-delete scenario on a store over an empty
drive, after the delete the key is no longer contained and reading it
fails with `KeyError` (third conjunct). -/
theorem c7_delete_semantics :
    (∀ (s : GDStore) (key : String),
        ((s.delItem key).1 = Except.error (PyErr.keyError key))
          ↔ hasKey (s.filesM).1 key = false)
    ∧ (∀ (s : GDStore) (key : String), hasKey (s.filesM).1 key = true →
        (s.delItem key).1 = Except.ok ()
        ∧ (s.delItem key).2.1.fileCache = none
        ∧ (s.delItem key).2.1.drive
            = (s.filesM).2.1.drive.deleteNode (getVal (s.filesM).1 key))
    ∧ (∀ (iH : Bool) (b : List Byte) (key : String) (segs : List String),
        splitSlash key = segs → pathOfSegs segs = key → segs ≠ [] →
        (∀ t ∈ segs, headIs '.' t = false) →
        ((((GDStore.setItem (store0 iH) key (PyVal.bytes b)).2.1).delItem
            key).1 = Except.ok ()
        ∧ (((((GDStore.setItem (store0 iH) key (PyVal.bytes b)).2.1).delItem
            key).2.1).containsKey key).1 = false
        ∧ (((((GDStore.setItem (store0 iH) key (PyVal.bytes b)).2.1).delItem
            key).2.1).getItem key).1 = Except.error (PyErr.keyError key))) := by
  refine ⟨?_, ?_, ?_⟩
  · intro s key
    simp only [GDStore.delItem]
    by_cases hk : hasKey (s.filesM).1 key = true
    · simp [hk]
    · simp [hk]
  · intro s key hk
    simp [GDStore.delItem, hk]
  · intro iH b key segs h1 h2 h3 h4
    have hset := setItem_store0 iH b key segs h1 h3
    have hl : headIs '.' (segs.getLast h3) = false := h4 _ (List.getLast_mem h3)
    have hf : ∀ t ∈ segs.dropLast, headIs '.' t = false :=
      fun t ht => h4 t (List.dropLast_subset segs ht)
    have hpairs := filesOf_chain_file iH segs.dropLast (segs.getLast h3)
      (decodeLatin1 b) (1 + segs.dropLast.length + 1) hf hl
    rw [List.dropLast_append_getLast h3] at hpairs
    have h2' : List.foldl mkItemPath "" segs = key := h2
    rw [h2'] at hpairs
    have hids : ∀ n ∈ chainFolders segs.dropLast 0 1,
        n.id ≠ 1 + segs.dropLast.length := by
      intro n hn
      have := chainFolders_id segs.dropLast 0 1 n hn
      omega
    have hdelete : Drive.deleteNode
        ⟨chainFolders segs.dropLast 0 1
          ++ [⟨1 + segs.dropLast.length, segs.getLast h3, false,
              chainLast segs.dropLast 0 1, decodeLatin1 b, false⟩],
          1 + segs.dropLast.length + 1⟩ (1 + segs.dropLast.length)
        = ⟨chainFolders segs.dropLast 0 1, 1 + segs.dropLast.length + 1⟩ := by
      rw [Drive.deleteNode]
      have hkeep : (chainFolders segs.dropLast 0 1).filter
          (fun n => !(n.id == 1 + segs.dropLast.length))
          = chainFolders segs.dropLast 0 1 := by
        rw [List.filter_eq_self]
        intro n hn
        simpa using hids n hn
      rw [List.filter_append, hkeep]
      simp
    rw [hset]
    have hdel : GDStore.delItem
        (⟨⟨chainFolders segs.dropLast 0 1
            ++ [⟨1 + segs.dropLast.length, segs.getLast h3, false,
                chainLast segs.dropLast 0 1, decodeLatin1 b, false⟩],
          1 + segs.dropLast.length + 1⟩, 0, none, iH, none⟩ : GDStore) key
        = (Except.ok (),
           ⟨⟨chainFolders segs.dropLast 0 1, 1 + segs.dropLast.length + 1⟩,
            0, none, iH, none⟩,
           (GDStore.filesOf
             (⟨⟨chainFolders segs.dropLast 0 1
                ++ [⟨1 + segs.dropLast.length, segs.getLast h3, false,
                    chainLast segs.dropLast 0 1, decodeLatin1 b, false⟩],
               1 + segs.dropLast.length + 1⟩, 0, none, iH, none⟩ : GDStore)).calls
             ++ [CallEv.deleteNode (1 + segs.dropLast.length)]) := by
      simp only [GDStore.delItem, GDStore.filesM]
      rw [hpairs]
      have hd : dictOf [(key, 1 + segs.dropLast.length)]
          = [(key, 1 + segs.dropLast.length)] := rfl
      rw [hd]
      have hhk : hasKey [(key, 1 + segs.dropLast.length)] key = true := by
        simp [hasKey]
      have hgv : getVal [(key, 1 + segs.dropLast.length)] key
          = 1 + segs.dropLast.length := by
        simp [getVal, List.find?]
      rw [hhk]
      simp only [if_true, hgv, hdelete]
    rw [hdel]
    have hp2 := filesOf_chain_nofile iH segs.dropLast
      (1 + segs.dropLast.length + 1)
    refine ⟨rfl, ?_, ?_⟩
    · simp only [GDStore.containsKey, GDStore.filesM]
      rw [hp2]
      rfl
    · simp only [GDStore.getItem, GDStore.filesM]
      rw [hp2]
      rfl

/-- Closed instances of C7: deleting a present key from a cached store
succeeds, clears the cache, and deletes the mapped node; and the
write-then-delete scenario on `a/b.txt` ends with the key gone. -/
theorem c7_delete_semantics_witness :
    ((GDStore.delItem ⟨⟨[], 1⟩, 0, none, false, some [("k", 5)]⟩ "k").1
        = Except.ok ()
      ∧ (GDStore.delItem ⟨⟨[], 1⟩, 0, none, false, some [("k", 5)]⟩ "k").2.1.fileCache
        = none
      ∧ (GDStore.delItem ⟨⟨[], 1⟩, 0, none, false, some [("k", 5)]⟩ "k").2.1.drive
        = (GDStore.filesM ⟨⟨[], 1⟩, 0, none, false, some [("k", 5)]⟩).2.1.drive.deleteNode
            (getVal (GDStore.filesM ⟨⟨[], 1⟩, 0, none, false, some [("k", 5)]⟩).1 "k"))
    ∧ ((((GDStore.setItem (store0 true) "a/b.txt"
          (PyVal.bytes [(104 : Byte)])).2.1).delItem "a/b.txt").1 = Except.ok ()
      ∧ (((((GDStore.setItem (store0 true) "a/b.txt"
          (PyVal.bytes [(104 : Byte)])).2.1).delItem "a/b.txt").2.1).containsKey
            "a/b.txt").1 = false
      ∧ (((((GDStore.setItem (store0 true) "a/b.txt"
          (PyVal.bytes [(104 : Byte)])).2.1).delItem "a/b.txt").2.1).getItem
            "a/b.txt").1 = Except.error (PyErr.keyError "a/b.txt")) :=
  ⟨c7_delete_semantics.2.1 ⟨⟨[], 1⟩, 0, none, false, some [("k", 5)]⟩ "k"
      (by decide),
    c7_delete_semantics.2.2 true [(104 : Byte)] "a/b.txt" ["a", "b.txt"]
      (by decide) (by decide) (by decide) (by decide)⟩

end Pydrivedol
